import Mathlib

/-!
Shallow embedding of the hybrid retrieval/ranking engine of the
commerce-agent backend (src/backend/services), together with proofs about
the claims of its specification.

Conventions of the embedding:
* Python floats are modelled as rationals (`ℚ`); the scoring formulas are
  exact rational arithmetic.
* Python dictionaries with insertion order are modelled as association
  lists (`List (String × β)`).
* External encoders (sentence transformers, Gemini, CLIP, TF-IDF) are
  modelled as function parameters: a fixed catalog/query encoding is a
  fixed similarity function `Nat → ℚ` over catalog indices.
* `np.argsort(-score)` is modelled as a deterministic descending sort of
  the index list.  NumPy's default kind (quicksort/introsort) is
  deterministic but documented as not stable; the model uses the stable
  order, and no theorem below about tie order is claimed beyond what the
  model supports.
-/

namespace Commerce

/-- Character-list test: does `p` occur as a leading block of `s`?
Used to model Python's substring operator `in`. -/
def lead_match : List Char → List Char → Bool
  | [], _ => true
  | _ :: _, [] => false
  | p :: ps, c :: cs => p == c && lead_match ps cs

/-- Does the pattern occur anywhere in the character list?  Models
Python's `pat in s` on strings. -/
def any_match (pat : List Char) : List Char → Bool
  | [] => lead_match pat []
  | c :: cs => lead_match pat (c :: cs) || any_match pat cs

/-- Python's `pat in s` substring test. -/
def str_contains (s pat : String) : Bool :=
  any_match pat.toList s.toList

/-- ASCII lowering of one character (the catalog and query strings of
this code base are ASCII, where Python's `str.lower` is exactly this). -/
def lower_char (c : Char) : Char :=
  if 65 ≤ c.toNat ∧ c.toNat ≤ 90 then Char.ofNat (c.toNat + 32) else c

/-- ASCII uppering of one character. -/
def upper_char (c : Char) : Char :=
  if 97 ≤ c.toNat ∧ c.toNat ≤ 122 then Char.ofNat (c.toNat - 32) else c

/-- Python `str.lower` (ASCII). -/
def py_lower (s : String) : String :=
  String.mk (s.toList.map lower_char)

/-- Python `str.strip`: drop whitespace from both ends. -/
def py_strip (s : String) : String :=
  String.mk
    (((s.toList.dropWhile Char.isWhitespace).reverse.dropWhile
        Char.isWhitespace).reverse)

/-- Python `str.capitalize`: first character uppercased, the rest
lowered. -/
def py_capitalize (s : String) : String :=
  match s.toList with
  | [] => ""
  | c :: cs => String.mk (upper_char c :: cs.map lower_char)

/-- Replace every non-overlapping occurrence of `pat` (left to right) by
`rep`; the character-list engine of Python's `str.replace`.  The fuel
argument (initialized to the list length, ample since every step
consumes at least one character) keeps the recursion structural. -/
def replace_chars (pat rep : List Char) : Nat → List Char → List Char
  | _, [] => []
  | 0, l => l
  | fuel + 1, c :: cs =>
    if pat ≠ [] ∧ lead_match pat (c :: cs) then
      rep ++ replace_chars pat rep fuel ((c :: cs).drop pat.length)
    else c :: replace_chars pat rep fuel cs

/-- Python `str.replace`. -/
def py_replace (s pat rep : String) : String :=
  String.mk (replace_chars pat.toList rep.toList s.toList.length s.toList)

/-- First-match association-list lookup with a default; models Python's
`dict.get(key, default)`. -/
def lookupD {β : Type} : List (String × β) → String → β → β
  | [], _, d => d
  | (k, v) :: rest, c, d => if k = c then v else lookupD rest c d

/-- Increment the counter stored for key `c`, appending a fresh entry at
the end when the key is new; models `counts[c] = counts.get(c, 0) + 1`
on an insertion-ordered dict. -/
def bump : List (String × Nat) → String → List (String × Nat)
  | [], c => [(c, 1)]
  | (k, n) :: rest, c =>
    if k = c then (k, n + 1) :: rest else (k, n) :: bump rest c

/-- Build the insertion-ordered category counter for a list of keys. -/
def counts_fold (xs : List String) : List (String × Nat) :=
  xs.foldl bump []

/-- Scan for the first pair attaining the maximal value; models Python's
`max(iterable, key=f)`, which keeps the earliest maximal element. -/
def first_max_pair {β : Type} [LinearOrder β] :
    (String × β) → List (String × β) → (String × β)
  | best, [] => best
  | best, q :: rest =>
    if best.2 < q.2 then first_max_pair q rest else first_max_pair best rest

/-- Key of the earliest maximal-value entry; models
`max(d, key=d.get)` over an insertion-ordered dict (`""` on empty input,
which the callers below never hit). -/
def first_max_key {β : Type} [LinearOrder β] : List (String × β) → String
  | [] => ""
  | p :: rest => (first_max_pair p rest).1

/-- Stable descending sort of an index list by a score key; the model of
`np.argsort(-score)` (see the header note on stability). -/
def sort_desc_by (key : Nat → ℚ) (l : List Nat) : List Nat :=
  l.insertionSort (fun i j => key j ≤ key i)

/-- Indices `0 .. n-1` ordered by descending score. -/
def argsort_desc (scores : List ℚ) : List Nat :=
  sort_desc_by (fun i => scores.getD i 0) (List.range scores.length)

/-- ASCII letter test, the character class `[A-Za-z]` of the regexes in
the source. -/
def ascii_alpha (c : Char) : Bool :=
  (97 ≤ c.toNat && c.toNat ≤ 122) || (65 ≤ c.toNat && c.toNat ≤ 90)

/-- Maximal runs of ASCII letters in a character list; models
`re.findall(r"[a-zA-Z]+", s)`. -/
def alpha_runs : List Char → List Char → List String
  | cur, [] => if cur.isEmpty then [] else [String.mk cur.reverse]
  | cur, c :: cs =>
    if ascii_alpha c then alpha_runs (c :: cur) cs
    else if cur.isEmpty then alpha_runs [] cs
    else String.mk cur.reverse :: alpha_runs [] cs

/-- One catalog item (`data/catalog.json` entry), with the fields the
search services read.  `category`/`color` are `none` when the JSON field
is null or absent. -/
structure Item where
  id : Nat
  title : String
  description : String
  category : Option String
  color : Option String
  price : ℚ
  tags : List String
deriving DecidableEq, Repr, Inhabited

namespace TextIndex

/-- Canonical color vocabulary (`text_index.COLOR_SET`). -/
def COLOR_SET : List String :=
  ["red", "blue", "green", "black", "white", "yellow", "brown", "gray",
   "purple", "orange", "assorted"]

/-- Canonical category vocabulary (`text_index.CAT_SET`). -/
def CAT_SET : List String :=
  ["bags", "shoes", "jackets", "caps"]

/-- `text_index._norm_color`: empty/None and unrecognized tokens become
`none`; otherwise the stripped, lowered token. -/
def norm_color : Option String → Option String
  | none => none
  | some s =>
    if s = "" then none
    else
      let t := py_lower (py_strip s)
      if COLOR_SET.contains t then some t else none

/-- `text_index._norm_cat`. -/
def norm_cat : Option String → Option String
  | none => none
  | some s =>
    if s = "" then none
    else
      let t := py_lower (py_strip s)
      if CAT_SET.contains t then some t else none

/-- Python truthiness of the raw `category` argument (`if ... and category:`). -/
def category_given : Option String → Bool
  | none => false
  | some s => s ≠ ""

/-- `TextIndex._apply_filters`: keep the indices whose item passes the
normalized category/color equality tests and the inclusive price bounds. -/
def apply_filters (catalog : List Item) (idxs : List Nat)
    (category color : Option String) (min_price max_price : Option ℚ) :
    List Nat :=
  let ccat := norm_cat category
  let ccol := norm_color color
  idxs.filter fun i =>
    let it := catalog.getD i default
    (match ccat with
     | none => true
     | some c => norm_cat it.category = some c)
    && (match ccol with
        | none => true
        | some c => norm_color it.color = some c)
    && (match min_price with
        | none => true
        | some m => m ≤ it.price)
    && (match max_price with
        | none => true
        | some m => it.price ≤ m)

/-- Distinct lowercase alphabetic tokens of the query,
`set(re.findall(r"[a-zA-Z]+", q.lower()))`. -/
def query_words (q : String) : List String :=
  (alpha_runs [] (py_lower q).toList).dedup

/-- `tag_boost` inside `TextIndex.search_with_filters`:
`0.12 * min(|q_words ∩ tags|, 2)`. -/
def tag_boost (q_words : List String) (it : Item) : ℚ :=
  let tags := it.tags.map py_lower
  let overlap := (q_words.filter (fun w => tags.contains w)).length
  (12 / 100 : ℚ) * (min overlap 2 : ℕ)

/-- `price_boost` inside `TextIndex.search_with_filters`. -/
def price_boost (max_price : Option ℚ) (it : Item) : ℚ :=
  match max_price with
  | none => 0
  | some mx =>
    if mx < it.price then -1 else (10 / 100 : ℚ) * (it.price / mx)

/-- Candidate construction of `TextIndex.search_with_filters`: the
fully-constrained filter output, or — when that is empty and a category
argument was passed — the filter output with only the color constraint
dropped. -/
def candidate_idx (catalog : List Item) (category color : Option String)
    (min_price max_price : Option ℚ) : List Nat :=
  let all_idx := List.range catalog.length
  let idx0 := apply_filters catalog all_idx category color min_price max_price
  if idx0 = [] ∧ category_given category then
    apply_filters catalog all_idx category none min_price max_price
  else idx0

/-- Fused score of one candidate in `TextIndex.search_with_filters`:
base similarity plus tag and price boosts. -/
def fused_score (sims : Nat → ℚ) (qw : List String) (max_price : Option ℚ)
    (catalog : List Item) (i : Nat) : ℚ :=
  sims i + tag_boost qw (catalog.getD i default)
    + price_boost max_price (catalog.getD i default)

/-- Ranking step `np.argsort(-score)[:top_k]`. -/
def rank_by (scores : List ℚ) (top_k : Nat) : List Nat :=
  (argsort_desc scores).take top_k

/-- `TextIndex.search_with_filters`.  `sims` is the fixed similarity of
the encoded query against each catalog vector (`self.vecs @ qv`); the
result is the ranked list of `(catalog index, fused score)` pairs. -/
def search_with_filters (catalog : List Item) (sims : Nat → ℚ)
    (query : String) (category color : Option String)
    (min_price max_price : Option ℚ) (top_k : Nat) : List (Nat × ℚ) :=
  let q := if query = "" then "popular picks" else query
  let idx := candidate_idx catalog category color min_price max_price
  if idx = [] then []
  else
    let qw := query_words q
    let scores := idx.map (fused_score sims qw max_price catalog)
    (rank_by scores top_k).map (fun j => (idx.getD j 0, scores.getD j 0))

end TextIndex

namespace EmbeddingIndex

/-- Explicit filters passed to `EmbeddingIndex.search_with_filters`
(keys `category`, `min_price`, `max_price`, `color` of the dict). -/
structure Filters where
  category : Option String
  min_price : Option ℚ
  max_price : Option ℚ
  color : Option String
deriving DecidableEq, Repr, Inhabited

/-- Python truthiness of an optional string value of the filters dict. -/
def truthy : Option String → Bool
  | none => false
  | some s => s ≠ ""

/-- Category/price pre-filter of `EmbeddingIndex.search_with_filters`
(raw equality on the stored category string, inclusive price bounds). -/
def base_idxs (catalog : List Item) (f : Filters) : List Nat :=
  let idxs := List.range catalog.length
  let idxs :=
    if truthy f.category then
      idxs.filter (fun i => (catalog.getD i default).category = f.category)
    else idxs
  let idxs :=
    match f.min_price with
    | none => idxs
    | some m => idxs.filter (fun i => m ≤ (catalog.getD i default).price)
  match f.max_price with
  | none => idxs
  | some m => idxs.filter (fun i => (catalog.getD i default).price ≤ m)

/-- The per-item color test of `EmbeddingIndex.search_with_filters`:
the requested color occurs in the lowered title+description blob, or in
the stored color with "gray" rewritten to "grey". -/
def color_hit (it : Item) (col : String) : Bool :=
  let blob := py_lower (it.title ++ " " ++ it.description)
  let clr := py_replace (py_lower (it.color.getD "")) "gray" "grey"
  str_contains blob col || str_contains clr col

/-- Candidate-set construction of `EmbeddingIndex.search_with_filters`:
strict color subset when non-empty, otherwise the category/price subset,
otherwise the whole catalog. -/
def candidates (catalog : List Item) (f : Filters) : List Nat :=
  let idxs := base_idxs catalog f
  let strict : Option (List Nat) :=
    if truthy f.color then
      some (idxs.filter (fun i =>
        color_hit (catalog.getD i default) (f.color.getD "")))
    else none
  let cand :=
    match strict with
    | some s => if s ≠ [] then s else idxs
    | none => idxs
  if cand = [] then List.range catalog.length else cand

/-- The fixed intent vocabulary scanned against the lowered query. -/
def INTENT_TERMS : List String :=
  ["running", "trail", "hiking", "gym", "workout", "sport", "sporty",
   "formal", "casual", "winter", "summer", "waterproof", "leather",
   "canvas", "breathable", "lightweight", "women", "ladies", "men",
   "unisex"]

/-- Intent terms occurring (as substrings) in the lowered query. -/
def intent_terms (q : String) : List String :=
  INTENT_TERMS.filter (fun t => str_contains (py_lower q) t)

/-- Flat 0.18 tag boost of `EmbeddingIndex.search_with_filters`: fires
when any detected intent term is a member of the item's lowered tags. -/
def ei_tag_boost (terms : List String) (it : Item) : ℚ :=
  if terms ≠ [] ∧
      (terms.any (fun t => (it.tags.map py_lower).contains t)) then
    18 / 100
  else 0

/-- Flat 0.25 color boost of `EmbeddingIndex.search_with_filters`. -/
def ei_color_boost (f : Filters) (it : Item) : ℚ :=
  if truthy f.color ∧ color_hit it (f.color.getD "") then 25 / 100 else 0

/-- `EmbeddingIndex.search_with_filters` (the ranking part; `sims` is
the fixed query/catalog cosine similarity vector, covering both the
Gemini and the TF-IDF modes). -/
def search_with_filters (catalog : List Item) (sims : Nat → ℚ)
    (query : String) (f : Filters) (top_k : Nat) : List (Nat × ℚ) :=
  let cand := candidates catalog f
  let terms := intent_terms query
  let score_of := fun i =>
    sims i + ei_color_boost f (catalog.getD i default)
      + ei_tag_boost terms (catalog.getD i default)
  let scores := cand.map score_of
  let order := (argsort_desc scores).take top_k
  order.map (fun j => (cand.getD j 0, scores.getD j 0))

/-- `EmbeddingIndex._embed_batch_gemini`: embed the corpus one text at a
time with the (fallible) Gemini embedder; the first failure aborts the
whole batch, discarding the partial results. -/
def embed_batch_gemini (gem : String → Option (List ℚ)) :
    List String → Option (List (List ℚ))
  | [] => some []
  | t :: ts =>
    match gem t with
    | none => none
    | some v =>
      match embed_batch_gemini gem ts with
      | none => none
      | some vs => some (v :: vs)

/-- Result of a successful `_rebuild_resilient`: the per-item vectors
and the recorded backend identity (contents of `text_mode.txt`). -/
structure BuildResult where
  vecs : List (List ℚ)
  mode : String
deriving DecidableEq, Repr, Inhabited

/-- `EmbeddingIndex._rebuild_resilient`: try the Gemini batch when an
API key is configured; on any failure fall back to the offline TF-IDF
encoder over the same corpus, recording mode "tfidf". -/
def rebuild_resilient (has_key : Bool) (gem : String → Option (List ℚ))
    (tfidf : List String → List (List ℚ)) (texts : List String) :
    BuildResult :=
  if texts = [] then ⟨[], "gemini"⟩
  else if has_key then
    match embed_batch_gemini gem texts with
    | some X => ⟨X, "gemini"⟩
    | none => ⟨tfidf texts, "tfidf"⟩
  else ⟨tfidf texts, "tfidf"⟩

end EmbeddingIndex

namespace VisionIndex

/-- One entry of `VisionIndex.meta`: catalog position plus the resolved
category and color strings stored at build time. -/
structure VMeta where
  idx : Nat
  category : String
  color : String
deriving DecidableEq, Repr, Inhabited

/-- Encoder choice of `VisionIndex.__init__`: priority order decided by
library availability (import success), before any encoding happens. -/
def pick_backend (has_open_clip has_torch : Bool) : String :=
  if has_open_clip then "open_clip"
  else if has_torch then "resnet50"
  else "hsv"

/-- Corpus encoding loop of `VisionIndex._rebuild` for the chosen
encoder.  A raising `encoder.encode` call is not caught anywhere in
`_rebuild`/`__init__`, so a failure aborts the whole build
(`Except.error`); images are encoded in catalog order. -/
def build_embs (enc : Nat → Except Unit (List ℚ)) :
    List Nat → Except Unit (List (List ℚ))
  | [] => .ok []
  | img :: rest =>
    match enc img with
    | .error e => .error e
    | .ok v =>
      match build_embs enc rest with
      | .error e => .error e
      | .ok vs => .ok (v :: vs)

/-- `colorsys.rgb_to_hsv` on exact rationals (r, g, b in [0,1]). -/
def rgb_to_hsv (r g b : ℚ) : ℚ × ℚ × ℚ :=
  let maxc := max r (max g b)
  let minc := min r (min g b)
  let v := maxc
  if minc = maxc then (0, 0, v)
  else
    let rangec := maxc - minc
    let s := rangec / maxc
    let rc := (maxc - r) / rangec
    let gc := (maxc - g) / rangec
    let bc := (maxc - b) / rangec
    let h := if r = maxc then bc - gc
             else if g = maxc then 2 + rc - bc
             else 4 + gc - rc
    (Int.fract (h / 6), s, v)

/-- The `NEUTRAL_FIRST` module flag of `vision_search`. -/
def NEUTRAL_FIRST : Bool := true

/-- Hue-bin edges of the coarse 360-degree histogram. -/
def HUE_BINS : List ℚ :=
  [0, 15, 45, 75, 150, 210, 270, 315, 345, 360]

/-- `np.histogram(hm, bins=HUE_BINS)`: counts per half-open bin, the
last bin closed on the right. -/
def hist_counts (xs : List ℚ) : List Nat :=
  (List.range 9).map fun i =>
    let lo := HUE_BINS.getD i 0
    let hi := HUE_BINS.getD (i + 1) 0
    (xs.filter (fun x => lo ≤ x ∧ (x < hi ∨ (i = 8 ∧ x ≤ hi)))).length

/-- `np.argmax`: index of the first maximal entry (0 on empty input). -/
def argmax_first (l : List Nat) : Nat :=
  (l.foldl
    (fun st x =>
      let best := st.1
      let bestIdx := st.2.1
      let cur := st.2.2
      if best < x then (x, cur, cur + 1) else (best, bestIdx, cur + 1))
    (l.headD 0, 0, 0)).2.1

/-- `vision_search._dominant_color_name` over the post-resize pixel grid
(one RGB triple per pixel; the 160x160 resize of a uniform image is the
same uniform list).  The surrounding try/except (decode failures) is not
modelled: the function here is total on its pixel list. -/
def dominant_color_name (pixels : List (ℚ × ℚ × ℚ)) : String :=
  let hsv := pixels.map fun p => rgb_to_hsv p.1 p.2.1 p.2.2
  let n : ℚ := pixels.length
  let mean_s := (hsv.map fun t => t.2.1).sum / n
  let mean_v := (hsv.map fun t => t.2.2).sum / n
  if NEUTRAL_FIRST ∧ mean_v < 18 / 100 ∧ mean_s < 25 / 100 then "black"
  else if NEUTRAL_FIRST ∧ mean_v > 90 / 100 ∧ mean_s < 8 / 100 then "white"
  else if NEUTRAL_FIRST ∧ mean_s < 15 / 100 then "gray"
  else
    let masked := hsv.filter fun t => 25 / 100 ≤ t.2.1 ∧ 25 / 100 ≤ t.2.2
    if (masked.length : ℚ) < n * (3 / 100) then
      if mean_v > 35 / 100 then "gray" else "black"
    else
      let hm := masked.map fun t => t.1 * 360
      let idx := argmax_first (hist_counts hm)
      if idx = 0 ∨ 7 ≤ idx then "red"
      else if idx = 1 then "orange"
      else if idx = 2 then "yellow"
      else if idx = 3 then "green"
      else if idx = 4 then "blue"
      else if idx = 5 ∨ idx = 6 then "purple"
      else "assorted"

/-- `VisionIndex._score`: backend base similarity plus the 0.12 color
bonus plus 0.25 times the histogram intersection.  `base` and `hist_sim`
are the fixed per-entry similarity values of the query at hand. -/
def score_vec (base hist_sim : Nat → ℚ) (meta : List VMeta)
    (q_color : String) : List ℚ :=
  (List.range meta.length).map fun i =>
    base i
      + (if q_color ≠ "assorted" ∧ (meta.getD i default).color = q_color
         then 12 / 100 else 0)
      + 25 / 100 * hist_sim i

/-- Categories of the top-M entries by the given scores
(`for j in order: self.meta[j]["category"]` inside `_category_prior`). -/
def top_cats (scores : List ℚ) (meta : List VMeta) (top_m : Nat) :
    List String :=
  ((argsort_desc scores).take (min top_m scores.length)).map
    fun j => (meta.getD j default).category

/-- The insertion-ordered category counter of `_category_prior`. -/
def prior_counts (scores : List ℚ) (meta : List VMeta) (top_m : Nat) :
    List (String × Nat) :=
  counts_fold (top_cats scores meta top_m)

/-- `total = sum(counts.values())` of `_category_prior`, as a rational. -/
def prior_total (scores : List ℚ) (meta : List VMeta) (top_m : Nat) : ℚ :=
  (((prior_counts scores meta top_m).map Prod.snd).sum : ℕ)

/-- The normalized priors dict `{c: (cnt/total)*0.15}`. -/
def prior_base (scores : List ℚ) (meta : List VMeta) (top_m : Nat) :
    List (String × ℚ) :=
  (prior_counts scores meta top_m).map fun p =>
    (p.1, ((p.2 : ℕ) : ℚ) / prior_total scores meta top_m * (15 / 100))

/-- `VisionIndex._category_prior`: category counts over the top-M
entries by the given scores, normalized by the total count times 0.15,
with the earliest maximal category nudged by an extra 0.05. -/
def category_prior (scores : List ℚ) (meta : List VMeta) (top_m : Nat) :
    List (String × ℚ) :=
  if prior_counts scores meta top_m = [] then []
  else
    let best := first_max_key (prior_base scores meta top_m)
    (prior_base scores meta top_m).map fun p =>
      (p.1, if p.1 = best then p.2 + 5 / 100 else p.2)

/-- `re.sub(r"^[A-Za-z]+\s+", color.capitalize() + " ", title, count=1)`:
replace a leading alphabetic word plus trailing whitespace; titles not
matching the pattern are returned unchanged. -/
def rewrite_title (q_color title : String) : String :=
  let cs := title.toList
  let word := cs.takeWhile ascii_alpha
  let rest := cs.dropWhile ascii_alpha
  let ws := rest.takeWhile Char.isWhitespace
  if word.isEmpty ∨ ws.isEmpty then title
  else py_capitalize q_color ++ " " ++ String.mk (rest.dropWhile Char.isWhitespace)

/-- Color/title harmonization applied to each returned item inside
`VisionIndex._search_image` (the catalog entry itself is copied first,
so the stored catalog is unchanged). -/
def harmonize (it : Item) (q_color : String) : Item :=
  if (it.color = none ∨ it.color = some "" ∨ it.color = some "assorted")
      ∧ q_color ≠ "assorted" then
    let t := rewrite_title q_color it.title
    { it with
      color := some q_color
      title := if t = "" then it.title else t }
  else it

/-- `VisionIndex._search_image`: score, add the category prior, rank,
truncate, and harmonize the copies of the returned catalog items.  The
`round(sc, 6)` display rounding of the score is omitted (scores are
exact rationals here). -/
def search_image (catalog : List Item) (meta : List VMeta)
    (base hist_sim : Nat → ℚ) (q_color : String) (top_k : Nat) :
    List (Item × ℚ) :=
  let scores := score_vec base hist_sim meta q_color
  let priors := category_prior scores meta 40
  let final := (List.range meta.length).map fun i =>
    scores.getD i 0 + lookupD priors (meta.getD i default).category 0
  let order := (argsort_desc final).take (min (top_k * 3) final.length)
  let results := order.map fun j => (j, final.getD j 0)
  ((results.take top_k).map fun p =>
    let m := meta.getD p.1 default
    (harmonize (catalog.getD m.idx default) q_color, p.2)).take top_k

/-- `VisionIndex.search_image_url`: any failure of the fetch/decode
(timeout, bad status, undecodable bytes) is caught and yields the empty
list; otherwise the decoded image is searched.  `q_params` packages the
query-side encoder outputs (base similarities, histogram intersections,
detected color) for a fetched image. -/
def search_image_url (fetch : String → Option Nat)
    (q_params : Nat → (Nat → ℚ) × (Nat → ℚ) × String)
    (catalog : List Item) (meta : List VMeta) (url : String)
    (top_k : Nat) : List (Item × ℚ) :=
  match fetch url with
  | none => []
  | some img =>
    let p := q_params img
    search_image catalog meta p.1 p.2.1 p.2.2 top_k

end VisionIndex

namespace ImageSearch

/-- One product dict as consumed by `services/image_search.py` (string
category, optional brand/image_url encoded as possibly-empty strings). -/
structure Product where
  id : Nat
  title : String
  brand : String
  category : String
  description : String
  tags : List String
  image_url : String
deriving DecidableEq, Repr, Inhabited

/-- `ImageSearch._product_text`. -/
def product_text (p : Product) : String :=
  let parts := [p.title, p.brand, p.category, p.description]
  let parts :=
    if p.tags ≠ [] then parts ++ [String.intercalate " " p.tags] else parts
  String.intercalate " | " (parts.filter (fun t => t ≠ ""))

/-- `ImageSearch._catalog_vector` (cache elided — the function is pure
here): try the product image; on fetch or embed failure fall back to the
text embedding of the product blob. -/
def catalog_vector (safe_get : String → Option Nat)
    (embed_img : Nat → Option (List ℚ)) (embed_text : String → List ℚ)
    (p : Product) : List ℚ :=
  let url := py_strip p.image_url
  if url ≠ "" then
    match safe_get url with
    | some content =>
      match embed_img content with
      | some v => v
      | none => embed_text (product_text p)
    | none => embed_text (product_text p)
  else embed_text (product_text p)

/-- Dot product of the (normalized) embedding vectors. -/
def dotQ (a b : List ℚ) : ℚ :=
  ((a.zip b).map fun p => p.1 * p.2).sum

/-- Ranking core of `ImageSearch.search_by_image_url` after the query
vector is fixed: cosine scores, expanded top pool, adaptive threshold,
dominant-category rerank, truncation.  The `torch.isfinite` guard is
always true in the rational model, so `vecs` lists one vector per
product. -/
def rank (products : List Product) (vecs : List (List ℚ))
    (qvec : List ℚ) (top_k : Nat) : List Product :=
  if products = [] then []
  else
    let scores := vecs.map fun v => dotQ v qvec
    let order := (argsort_desc scores).take (max (top_k * 4) 16)
    let max_s :=
      match order with
      | [] => (0 : ℚ)
      | j :: rest =>
        rest.foldl (fun acc i => max acc (scores.getD i 0)) (scores.getD j 0)
    let thr := max (22 / 100 : ℚ) (72 / 100 * max_s)
    let keep := order.filter fun i => thr ≤ scores.getD i 0
    let keep :=
      if keep ≠ [] then
        let counts := counts_fold
          ((keep.take 8).map fun i => py_lower (products.getD i default).category)
        let dom := if counts = [] then "" else first_max_key counts
        let boost := fun i =>
          scores.getD i 0
            + (if py_lower (products.getD i default).category = dom
                  ∧ thr < scores.getD i 0 then 5 / 100 else 0)
        keep.insertionSort fun i j => boost j ≤ boost i
      else keep
    (keep.take top_k).map fun i => products.getD i default

/-- `ImageSearch.search_by_image_url`: when the query-URL fetch fails
(or the bytes cannot be embedded), the URL string itself is embedded as
a *text* query and the search proceeds — it does not return early. -/
def search_by_image_url (safe_get : String → Option Nat)
    (embed_img : Nat → Option (List ℚ)) (embed_text : String → List ℚ)
    (products : List Product) (url : String) (top_k : Nat) :
    List Product :=
  let qvec :=
    match safe_get url with
    | none => embed_text url
    | some content =>
      match embed_img content with
      | none => embed_text url
      | some v => v
  rank products (products.map (catalog_vector safe_get embed_img embed_text))
    qvec top_k

end ImageSearch

/-- Concrete 41-entry metadata used to exercise the category prior: 40
"shoes" entries followed by one "caps" entry whose stored color is
"red". -/
def cex8_meta : List VisionIndex.VMeta :=
  ((List.range 40).map fun i => (⟨i, "shoes", "blue"⟩ : VisionIndex.VMeta))
    ++ [⟨40, "caps", "red"⟩]

/-- Concrete base similarities for `cex8_meta`: strictly decreasing for
the 40 shoes, and a low value for the caps entry that exceeds the last
shoe only after the 0.12 color bonus. -/
def cex8_base : Nat → ℚ := fun i =>
  if i < 40 then ((2000 - 10 * (i : ℤ) : ℤ) : ℚ) / 10000 else 455 / 10000

/-! ### Helper lemmas -/

/-- Membership in the filtered index list gives every constraint the
filter enforced. -/
theorem mem_apply_filters {catalog : List Item} {idxs : List Nat}
    {cat col : Option String} {minP maxP : Option ℚ} {i : Nat}
    (h : i ∈ TextIndex.apply_filters catalog idxs cat col minP maxP) :
    i ∈ idxs
    ∧ (∀ c, TextIndex.norm_cat cat = some c →
        TextIndex.norm_cat (catalog.getD i default).category = some c)
    ∧ (∀ c, TextIndex.norm_color col = some c →
        TextIndex.norm_color (catalog.getD i default).color = some c)
    ∧ (∀ m, minP = some m → m ≤ (catalog.getD i default).price)
    ∧ (∀ m, maxP = some m → (catalog.getD i default).price ≤ m) := by
  unfold TextIndex.apply_filters at h
  rw [List.mem_filter] at h
  obtain ⟨hmem, hcond⟩ := h
  simp only [Bool.and_eq_true] at hcond
  obtain ⟨⟨⟨h1, h2⟩, h3⟩, h4⟩ := hcond
  refine ⟨hmem, ?_, ?_, ?_, ?_⟩
  · intro c hc; rw [hc] at h1; simpa using h1
  · intro c hc; rw [hc] at h2; simpa using h2
  · intro m hm; rw [hm] at h3; simpa using h3
  · intro m hm; rw [hm] at h4; simpa using h4

/-- Every index produced by the ranking step is a position inside the
score list. -/
theorem mem_argsort_take {scores : List ℚ} {k j : Nat}
    (h : j ∈ (argsort_desc scores).take k) : j < scores.length := by
  have h1 : j ∈ argsort_desc scores := List.mem_of_mem_take h
  unfold argsort_desc sort_desc_by at h1
  rw [List.mem_insertionSort] at h1
  exact List.mem_range.mp h1

/-- Membership in the constructed candidate list comes from one of the
two filter calls (fully constrained, or color-relaxed). -/
theorem mem_candidate_idx {catalog : List Item} {cat col : Option String}
    {minP maxP : Option ℚ} {i : Nat}
    (h : i ∈ TextIndex.candidate_idx catalog cat col minP maxP) :
    i ∈ TextIndex.apply_filters catalog (List.range catalog.length)
        cat col minP maxP
    ∨ i ∈ TextIndex.apply_filters catalog (List.range catalog.length)
        cat none minP maxP := by
  unfold TextIndex.candidate_idx at h
  simp only at h
  split at h
  · exact Or.inr h
  · exact Or.inl h

/-- Structure of every member of the output of
`TextIndex.search_with_filters`: its index lies in the candidate list,
and its score is the fused score of that very item. -/
theorem mem_search_with_filters {catalog : List Item} {sims : Nat → ℚ}
    {query : String} {cat col : Option String} {minP maxP : Option ℚ}
    {k : Nat} {p : Nat × ℚ}
    (hp : p ∈ TextIndex.search_with_filters catalog sims query cat col
      minP maxP k) :
    p.1 ∈ TextIndex.candidate_idx catalog cat col minP maxP
    ∧ p.2 = TextIndex.fused_score sims
        (TextIndex.query_words
          (if query = "" then "popular picks" else query))
        maxP catalog p.1 := by
  unfold TextIndex.search_with_filters at hp
  simp only at hp
  split at hp
  · exact absurd hp (List.not_mem_nil p)
  · rw [List.mem_map] at hp
    obtain ⟨j, hj, hpe⟩ := hp
    have hjs : j < (TextIndex.candidate_idx catalog cat col minP maxP
        |>.map (TextIndex.fused_score sims
          (TextIndex.query_words
            (if query = "" then "popular picks" else query))
          maxP catalog)).length := by
      exact mem_argsort_take hj
    rw [List.length_map] at hjs
    subst hpe
    constructor
    · simp only
      rw [List.getD_eq_getElem _ _ hjs]
      exact List.getElem_mem _
    · simp only
      rw [List.getD_eq_getElem _ _ (by rw [List.length_map]; exact hjs),
        List.getElem_map, List.getD_eq_getElem _ _ hjs]

/-- Lookup misses every key-preserving association list without the
key. -/
theorem lookupD_not_mem {β : Type} {l : List (String × β)} {c : String}
    {d : β} (h : c ∉ l.map Prod.fst) : lookupD l c d = d := by
  induction l with
  | nil => rfl
  | cons p rest ih =>
    obtain ⟨k, v⟩ := p
    simp only [List.map_cons, List.mem_cons, not_or] at h
    simp only [lookupD]
    rw [if_neg (fun he => h.1 he.symm), ih h.2]

/-- On an association list with distinct keys, lookup returns the value
of any stored entry. -/
theorem lookupD_eq_of_mem {β : Type} {l : List (String × β)} {k : String}
    {v : β} (d : β) (hnd : (l.map Prod.fst).Nodup) (h : (k, v) ∈ l) :
    lookupD l k d = v := by
  induction l with
  | nil => cases h
  | cons p rest ih =>
    obtain ⟨k', v'⟩ := p
    simp only [List.map_cons, List.nodup_cons] at hnd
    rcases List.mem_cons.mp h with h1 | h1
    · obtain ⟨rfl, rfl⟩ := Prod.mk.injEq .. ▸ h1
      simp [lookupD]
    · have hk : ¬ k' = k := by
        intro he
        subst he
        exact hnd.1 (List.mem_map_of_mem Prod.fst h1)
      simp only [lookupD]
      rw [if_neg hk]
      exact ih hnd.2 h1

/-- Bumping a counter changes exactly the bumped key's count. -/
theorem lookupD_bump (l : List (String × Nat)) (c c' : String) :
    lookupD (bump l c) c' 0
      = lookupD l c' 0 + (if c' = c then 1 else 0) := by
  induction l with
  | nil =>
    show (if c = c' then 1 else lookupD [] c' 0)
      = lookupD [] c' 0 + (if c' = c then 1 else 0)
    by_cases h : c = c'
    · rw [if_pos h, if_pos h.symm]
      rfl
    · rw [if_neg h, if_neg (fun he => h he.symm)]
      rfl
  | cons p rest ih =>
    obtain ⟨k, n⟩ := p
    show lookupD
        (if k = c then (k, n + 1) :: rest else (k, n) :: bump rest c) c' 0
      = _
    by_cases hk : k = c
    · rw [if_pos hk]
      show (if k = c' then n + 1 else lookupD rest c' 0)
        = (if k = c' then n else lookupD rest c' 0)
          + (if c' = c then 1 else 0)
      by_cases h2 : k = c'
      · rw [if_pos h2, if_pos h2, if_pos (h2.symm.trans hk)]
      · rw [if_neg h2, if_neg h2, if_neg (fun he => h2 (hk.trans he.symm))]
        rfl
    · rw [if_neg hk]
      show (if k = c' then n else lookupD (bump rest c) c' 0)
        = (if k = c' then n else lookupD rest c' 0)
          + (if c' = c then 1 else 0)
      by_cases h2 : k = c'
      · rw [if_pos h2, if_pos h2, if_neg (fun he => hk (h2.trans he))]
        rfl
      · rw [if_neg h2, if_neg h2, ih]

/-- One catalog step of the counting fold. -/
theorem counts_fold_append (xs : List String) (y : String) :
    counts_fold (xs ++ [y]) = bump (counts_fold xs) y := by
  unfold counts_fold
  rw [List.foldl_append]
  rfl

/-- The counting fold computes exactly `List.count`. -/
theorem lookupD_counts_fold (xs : List String) (c : String) :
    lookupD (counts_fold xs) c 0 = xs.count c := by
  induction xs using List.reverseRecOn with
  | nil => rfl
  | append_singleton ys y ih =>
    rw [counts_fold_append, lookupD_bump, ih, List.count_append]
    have hy : List.count c [y] = if c = y then 1 else 0 := by
      by_cases h : c = y
      · subst h
        simp
      · simp [List.count_cons, h, fun he : y = c => h he.symm]
    rw [hy]

/-- Bump adds one to the stored total. -/
theorem sum_snd_bump (l : List (String × Nat)) (c : String) :
    ((bump l c).map Prod.snd).sum = (l.map Prod.snd).sum + 1 := by
  induction l with
  | nil => rfl
  | cons p rest ih =>
    obtain ⟨k, n⟩ := p
    simp only [bump]
    split_ifs
    · simp only [List.map_cons, List.sum_cons]
      omega
    · simp only [List.map_cons, List.sum_cons, ih]
      omega

/-- The counter totals to the number of counted keys. -/
theorem sum_snd_counts_fold (xs : List String) :
    ((counts_fold xs).map Prod.snd).sum = xs.length := by
  induction xs using List.reverseRecOn with
  | nil => rfl
  | append_singleton ys y ih =>
    rw [counts_fold_append, sum_snd_bump, ih]
    simp

/-- Definitional unfolding of `bump` on a cons cell. -/
theorem bump_cons (k : String) (n : Nat) (rest : List (String × Nat))
    (c : String) :
    bump ((k, n) :: rest) c
      = if k = c then (k, n + 1) :: rest else (k, n) :: bump rest c := rfl

/-- Keys after bumping: unchanged, or the new key appended. -/
theorem keys_bump (l : List (String × Nat)) (c : String) :
    (bump l c).map Prod.fst
      = if c ∈ l.map Prod.fst then l.map Prod.fst
        else l.map Prod.fst ++ [c] := by
  induction l with
  | nil => simp [bump]
  | cons p rest ih =>
    obtain ⟨k, n⟩ := p
    rw [bump_cons]
    by_cases hk : k = c
    · rw [if_pos hk]
      subst hk
      simp [List.map_cons, List.mem_cons]
    · rw [if_neg hk]
      simp only [List.map_cons, ih, List.mem_cons]
      by_cases hc : c ∈ rest.map Prod.fst
      · rw [if_pos hc, if_pos (Or.inr hc)]
      · rw [if_neg hc, if_neg (fun hor => by
          rcases hor with h | h
          · exact hk h.symm
          · exact hc h)]
        simp

/-- The counter's keys are exactly the counted values. -/
theorem mem_keys_counts_fold (xs : List String) (c : String) :
    c ∈ (counts_fold xs).map Prod.fst ↔ c ∈ xs := by
  induction xs using List.reverseRecOn generalizing c with
  | nil => simp [counts_fold]
  | append_singleton ys y ih =>
    rw [counts_fold_append, keys_bump]
    by_cases h : y ∈ (counts_fold ys).map Prod.fst
    · rw [if_pos h, ih]
      constructor
      · exact fun hm => List.mem_append_left _ hm
      · intro hm
        rcases List.mem_append.mp hm with hm | hm
        · exact hm
        · rw [List.mem_singleton.mp hm]
          exact (ih y).mp h
    · rw [if_neg h]
      simp [List.mem_append, ih]

/-- The counter's keys are distinct. -/
theorem nodup_keys_counts_fold (xs : List String) :
    ((counts_fold xs).map Prod.fst).Nodup := by
  induction xs using List.reverseRecOn with
  | nil => simp [counts_fold]
  | append_singleton ys y ih =>
    rw [counts_fold_append, keys_bump]
    split_ifs with h
    · exact ih
    · rw [List.nodup_append]
      exact ⟨ih, List.nodup_singleton y, by
        intro a ha hay
        rw [List.mem_singleton.mp hay] at ha
        exact h ha⟩

/-- Any key of an association list carries some stored value. -/
theorem exists_of_mem_keys {β : Type} {l : List (String × β)} {c : String}
    (h : c ∈ l.map Prod.fst) : ∃ v, (c, v) ∈ l := by
  rw [List.mem_map] at h
  obtain ⟨p, hp, he⟩ := h
  refine ⟨p.2, ?_⟩
  rw [show (c, p.2) = p from by rw [← he]]
  exact hp

/-- A value-only map keeps the key list.  The mapped list is passed as
an equation so that callers can instantiate it definitionally. -/
theorem keys_map_val {α β : Type} {l : List (String × α)}
    {l' : List (String × β)} (g : String → α → β)
    (hmap : l' = l.map fun p => (p.1, g p.1 p.2)) :
    l'.map Prod.fst = l.map Prod.fst := by
  subst hmap
  induction l with
  | nil => rfl
  | cons p rest ih => simp only [List.map_cons, ih]

/-- Lookup commutes with a value-only map on present keys. -/
theorem lookupD_map_mem {α β : Type} {l : List (String × α)}
    {l' : List (String × β)} (g : String → α → β)
    (hmap : l' = l.map fun p => (p.1, g p.1 p.2)) {c : String}
    (hc : c ∈ l.map Prod.fst) (d : β) (d' : α) :
    lookupD l' c d = g c (lookupD l c d') := by
  subst hmap
  induction l with
  | nil => simp at hc
  | cons p rest ih =>
    obtain ⟨k, v⟩ := p
    simp only [List.map_cons, lookupD]
    by_cases hk : k = c
    · subst hk
      simp [lookupD]
    · rw [if_neg hk, if_neg hk]
      apply ih
      simp only [List.map_cons, List.mem_cons] at hc
      rcases hc with h | h
      · exact absurd h.symm hk
      · exact h

/-- Every entry of a value-only map stores the image of its looked-up
source value (distinct keys). -/
theorem mem_map_val_eq {α β : Type} {l : List (String × α)}
    {l' : List (String × β)} (g : String → α → β)
    (hmap : l' = l.map fun p => (p.1, g p.1 p.2))
    (hnd : (l.map Prod.fst).Nodup) {c : String} {w : β} (d : α)
    (h : (c, w) ∈ l') : w = g c (lookupD l c d) := by
  subst hmap
  rw [List.mem_map] at h
  obtain ⟨p, hp, he⟩ := h
  have h1 : p.1 = c := congrArg Prod.fst he
  have h2 : g p.1 p.2 = w := congrArg Prod.snd he
  have h3 : (c, p.2) ∈ l := by
    rw [← h1, Prod.mk.eta]
    exact hp
  rw [lookupD_eq_of_mem d hnd h3, ← h2, h1]

/-- The first-maximum scan returns a member attaining the maximum. -/
theorem first_max_pair_spec {β : Type} [LinearOrder β] (p : String × β)
    (l : List (String × β)) :
    first_max_pair p l ∈ p :: l
    ∧ ∀ q ∈ p :: l, q.2 ≤ (first_max_pair p l).2 := by
  induction l generalizing p with
  | nil =>
    refine ⟨List.mem_cons_self _ _, ?_⟩
    intro q hq
    rw [List.mem_singleton.mp hq]
    exact le_rfl
  | cons r rest ih =>
    simp only [first_max_pair]
    split_ifs with hlt
    · obtain ⟨hm, hmax⟩ := ih r
      refine ⟨?_, ?_⟩
      · rcases List.mem_cons.mp hm with h | h
        · rw [h]
          exact List.mem_cons_of_mem _ (List.mem_cons_self _ _)
        · exact List.mem_cons_of_mem _ (List.mem_cons_of_mem _ h)
      · intro q hq
        rcases List.mem_cons.mp hq with h | h
        · rw [h]
          exact le_of_lt
            (lt_of_lt_of_le hlt (hmax r (List.mem_cons_self _ _)))
        · exact hmax q h
    · obtain ⟨hm, hmax⟩ := ih p
      refine ⟨?_, ?_⟩
      · rcases List.mem_cons.mp hm with h | h
        · rw [h]
          exact List.mem_cons_self _ _
        · exact List.mem_cons_of_mem _ (List.mem_cons_of_mem _ h)
      · intro q hq
        rcases List.mem_cons.mp hq with h | h
        · rw [h]
          exact hmax p (List.mem_cons_self _ _)
        · rcases List.mem_cons.mp h with h2 | h2
          · rw [h2]
            exact le_trans (le_of_not_lt hlt)
              (hmax p (List.mem_cons_self _ _))
          · exact hmax q (List.mem_cons_of_mem _ h2)

/-- The first-maximum key carries a maximal stored value. -/
theorem first_max_key_spec {β : Type} [LinearOrder β]
    {l : List (String × β)} (h : l ≠ []) :
    ∃ v, (first_max_key l, v) ∈ l ∧ ∀ q ∈ l, q.2 ≤ v := by
  cases l with
  | nil => exact absurd rfl h
  | cons p rest =>
    obtain ⟨hm, hmax⟩ := first_max_pair_spec p rest
    refine ⟨(first_max_pair p rest).2, ?_, hmax⟩
    show ((first_max_pair p rest).1, (first_max_pair p rest).2) ∈ p :: rest
    rw [Prod.mk.eta]
    exact hm

/-- The title rewrite returns the empty string only for the empty
title. -/
theorem rewrite_title_eq_empty {q t : String}
    (h : VisionIndex.rewrite_title q t = "") : t = "" := by
  unfold VisionIndex.rewrite_title at h
  simp only at h
  split at h
  · exact h
  · exfalso
    have hlen := congrArg String.length h
    rw [String.length_append, String.length_append] at hlen
    have h1 : (" " : String).length = 1 := rfl
    have h0 : ("" : String).length = 0 := rfl
    omega

/-- Behaviour of the harmonization step on an item whose stored color is
null, empty or "assorted", for a detected query color other than
"assorted". -/
theorem harmonize_fields {it : Item} {qc : String}
    (hc : it.color = none ∨ it.color = some "" ∨ it.color = some "assorted")
    (hq : qc ≠ "assorted") :
    (VisionIndex.harmonize it qc).color = some qc
    ∧ (VisionIndex.harmonize it qc).title
      = VisionIndex.rewrite_title qc it.title
    ∧ (VisionIndex.harmonize it qc).id = it.id
    ∧ (VisionIndex.harmonize it qc).description = it.description
    ∧ (VisionIndex.harmonize it qc).category = it.category
    ∧ (VisionIndex.harmonize it qc).price = it.price
    ∧ (VisionIndex.harmonize it qc).tags = it.tags := by
  unfold VisionIndex.harmonize
  rw [if_pos ⟨hc, hq⟩]
  refine ⟨rfl, ?_, rfl, rfl, rfl, rfl, rfl⟩
  simp only
  split
  · next h => rw [h]; exact rewrite_title_eq_empty h
  · rfl

/-- Every item returned by `VisionIndex._search_image` is the
harmonization of a stored catalog item. -/
theorem mem_search_image {catalog : List Item}
    {meta : List VisionIndex.VMeta} {base hist : Nat → ℚ} {qc : String}
    {k : Nat} {p : Item × ℚ}
    (hp : p ∈ VisionIndex.search_image catalog meta base hist qc k) :
    ∃ j, p.1 = VisionIndex.harmonize
      (catalog.getD ((meta.getD j default).idx) default) qc := by
  unfold VisionIndex.search_image at hp
  simp only at hp
  have hp2 := List.mem_of_mem_take hp
  rw [List.mem_map] at hp2
  obtain ⟨q, hq, hqe⟩ := hp2
  exact ⟨q.1, by rw [← hqe]⟩

/-! ### Claim theorems -/

section ClaimTheorems

attribute [local semireducible] Rat.add Rat.mul Rat.inv Rat.sub

/-- C1 (amended): every item returned by `TextIndex.search_with_filters`
satisfies the normalized category constraint and the inclusive price
bounds — only the color constraint can be relaxed.  (The embedding
index, by contrast, falls back to the whole catalog; see the
counterexample.) -/
theorem C1_text_hard_filters_hold (catalog : List Item) (sims : Nat → ℚ)
    (query : String) (cat col : Option String) (minP maxP : Option ℚ)
    (k : Nat) (p : Nat × ℚ)
    (hp : p ∈ TextIndex.search_with_filters catalog sims query cat col
      minP maxP k) :
    (∀ c, TextIndex.norm_cat cat = some c →
      TextIndex.norm_cat (catalog.getD p.1 default).category = some c)
    ∧ (∀ m, minP = some m → m ≤ (catalog.getD p.1 default).price)
    ∧ (∀ m, maxP = some m → (catalog.getD p.1 default).price ≤ m) := by
  obtain ⟨hc, -⟩ := mem_search_with_filters hp
  rcases mem_candidate_idx hc with h | h <;>
    · obtain ⟨-, h1, -, h3, h4⟩ := mem_apply_filters h
      exact ⟨h1, h3, h4⟩

/-- Witness for C1: a concrete one-item catalog where the constrained
search returns the item, instantiating the theorem at that output. -/
theorem C1_text_hard_filters_hold_witness :
    ((0, (3 : ℚ)/50) ∈ TextIndex.search_with_filters
      [⟨1, "Running Shoes", "light shoes", some "shoes", some "red", 30,
        ["running"]⟩] (fun _ => 0) "" (some "shoes") none none (some 50) 5)
    ∧ ((∀ c, TextIndex.norm_cat (some "shoes") = some c →
        TextIndex.norm_cat (([⟨1, "Running Shoes", "light shoes",
          some "shoes", some "red", 30, ["running"]⟩] : List Item).getD 0
            default).category = some c)
      ∧ (∀ m, (none : Option ℚ) = some m →
          m ≤ (([⟨1, "Running Shoes", "light shoes", some "shoes",
            some "red", 30, ["running"]⟩] : List Item).getD 0 default).price)
      ∧ (∀ m, (some (50 : ℚ)) = some m →
          (([⟨1, "Running Shoes", "light shoes", some "shoes", some "red",
            30, ["running"]⟩] : List Item).getD 0 default).price ≤ m)) :=
  ⟨by decide,
   C1_text_hard_filters_hold
     [⟨1, "Running Shoes", "light shoes", some "shoes", some "red", 30,
       ["running"]⟩] (fun _ => 0) "" (some "shoes") none none (some 50) 5
     (0, 3/50) (by decide)⟩

/-- C1 counterexample: `EmbeddingIndex.search_with_filters` with
`category = "shoes"` and `max_price = 50` on a catalog holding one bag
priced 100 returns that bag (full-catalog fallback), violating both the
category constraint and the price bound. -/
theorem C1_counterexample :
    EmbeddingIndex.search_with_filters
        [⟨0, "Everyday Tote", "", some "bags", some "brown", 100, []⟩]
        (fun _ => 0) "" ⟨some "shoes", none, some 50, none⟩ 8
      = [(0, 0)]
    ∧ (([⟨0, "Everyday Tote", "", some "bags", some "brown", 100,
        []⟩] : List Item).getD 0 default).category = some "bags"
    ∧ (("bags" == "shoes") = false)
    ∧ (decide ((100 : ℚ) ≤ 50) = false) := by
  refine ⟨by decide, by decide, by decide, by decide⟩

/-- C2 (amended): in `TextIndex.search_with_filters`, when the fully
constrained filter is empty and a category argument was given, the
search equals the same search with the color constraint dropped
(category and price kept), and when even the relaxed filter is empty the
result is the empty list.  (The embedding index instead falls back to
the whole catalog; see the counterexample.) -/
theorem C2_text_relaxation (catalog : List Item) (sims : Nat → ℚ)
    (query : String) (cat col : Option String) (minP maxP : Option ℚ)
    (k : Nat)
    (h0 : TextIndex.apply_filters catalog (List.range catalog.length)
      cat col minP maxP = [])
    (hc : TextIndex.category_given cat = true) :
    TextIndex.search_with_filters catalog sims query cat col minP maxP k
      = TextIndex.search_with_filters catalog sims query cat none minP maxP k
    ∧ (TextIndex.apply_filters catalog (List.range catalog.length)
        cat none minP maxP = [] →
      TextIndex.search_with_filters catalog sims query cat col minP maxP k
        = []) := by
  have hl : TextIndex.candidate_idx catalog cat col minP maxP
      = TextIndex.apply_filters catalog (List.range catalog.length)
        cat none minP maxP := by
    unfold TextIndex.candidate_idx
    simp only [h0, hc, and_self, if_pos, true_and]
  have hr : TextIndex.candidate_idx catalog cat none minP maxP
      = TextIndex.apply_filters catalog (List.range catalog.length)
        cat none minP maxP := by
    unfold TextIndex.candidate_idx
    simp only
    split
    · rfl
    · rfl
  constructor
  · unfold TextIndex.search_with_filters
    rw [hl, hr]
  · intro h1
    unfold TextIndex.search_with_filters
    rw [hl, h1]
    simp

/-- Witness for C2: one catalog of red shoes, queried with
`category = "shoes", color = "purple"`; the constrained filter is empty,
and the theorem applies. -/
theorem C2_text_relaxation_witness :
    (TextIndex.apply_filters
      [⟨1, "Running Shoes", "light shoes", some "shoes", some "red", 30,
        ["running"]⟩] (List.range 1) (some "shoes") (some "purple") none
      none = [])
    ∧ TextIndex.category_given (some "shoes") = true
    ∧ (TextIndex.search_with_filters
        [⟨1, "Running Shoes", "light shoes", some "shoes", some "red", 30,
          ["running"]⟩] (fun _ => 0) "" (some "shoes") (some "purple")
        none none 5
      = TextIndex.search_with_filters
        [⟨1, "Running Shoes", "light shoes", some "shoes", some "red", 30,
          ["running"]⟩] (fun _ => 0) "" (some "shoes") none none none 5) :=
  ⟨by decide, by decide,
   (C2_text_relaxation
     [⟨1, "Running Shoes", "light shoes", some "shoes", some "red", 30,
       ["running"]⟩] (fun _ => 0) "" (some "shoes") (some "purple") none
     none 5 (by decide) (by decide)).1⟩

/-- C2 counterexample: with `category = "shoes", color = "purple"` on a
one-bag catalog, the category/price filter of the embedding index is
already empty; the code then serves the whole catalog instead of the
empty result, returning the bag — so the category constraint is dropped
and a non-empty result is returned even though the relaxed candidate set
was empty. -/
theorem C2_counterexample :
    EmbeddingIndex.base_idxs
        [⟨0, "Everyday Tote", "", some "bags", some "brown", 100, []⟩]
        ⟨some "shoes", none, none, some "purple"⟩ = []
    ∧ EmbeddingIndex.candidates
        [⟨0, "Everyday Tote", "", some "bags", some "brown", 100, []⟩]
        ⟨some "shoes", none, none, some "purple"⟩ = [0]
    ∧ EmbeddingIndex.search_with_filters
        [⟨0, "Everyday Tote", "", some "bags", some "brown", 100, []⟩]
        (fun _ => 0) "" ⟨some "shoes", none, none, some "purple"⟩ 8
      = [(0, 0)]
    ∧ (([] : List (Nat × ℚ)).isEmpty = true)
    ∧ ([((0 : Nat), (0 : ℚ))].isEmpty = false)
    ∧ (([⟨0, "Everyday Tote", "", some "bags", some "brown", 100,
        []⟩] : List Item).getD 0 default).category = some "bags" := by
  refine ⟨by decide, by decide, by decide, by decide, by decide, by decide⟩

/-- C4 (confirmed): the price boost is zero without `max_price`; for a
candidate that passed the price filter it is exactly
`0.10 * (price / max_price)`; and every returned item of a search with
`max_price = m` has price at most `m` (filtering precedes scoring). -/
theorem C4_price_boost (it : Item) (m : ℚ) (hpm : it.price ≤ m) :
    TextIndex.price_boost none it = 0
    ∧ TextIndex.price_boost (some m) it = 10 / 100 * (it.price / m)
    ∧ ∀ (catalog : List Item) (sims : Nat → ℚ) (query : String)
        (cat col : Option String) (minP : Option ℚ) (k : Nat)
        (q : Nat × ℚ),
        q ∈ TextIndex.search_with_filters catalog sims query cat col minP
          (some m) k →
        (catalog.getD q.1 default).price ≤ m := by
  refine ⟨rfl, ?_, ?_⟩
  · show (if m < it.price then (-1 : ℚ) else 10 / 100 * (it.price / m))
      = 10 / 100 * (it.price / m)
    rw [if_neg (not_lt.mpr hpm)]
  · intro catalog sims query cat col minP k q hq
    obtain ⟨hc, -⟩ := mem_search_with_filters hq
    rcases mem_candidate_idx hc with h | h <;>
      · obtain ⟨-, -, -, -, h4⟩ := mem_apply_filters h
        exact h4 m rfl

/-- Witness for C4 at price 30 and budget 50, with the concrete search
of the C1 witness discharging the output-membership hypothesis. -/
theorem C4_price_boost_witness :
    ((30 : ℚ) ≤ 50)
    ∧ (TextIndex.price_boost none
        ⟨1, "Running Shoes", "light shoes", some "shoes", some "red", 30,
          ["running"]⟩ = 0
      ∧ TextIndex.price_boost (some 50)
          ⟨1, "Running Shoes", "light shoes", some "shoes", some "red", 30,
            ["running"]⟩ = 10 / 100 * ((30 : ℚ) / 50)
      ∧ ∀ (catalog : List Item) (sims : Nat → ℚ) (query : String)
          (cat col : Option String) (minP : Option ℚ) (k : Nat)
          (q : Nat × ℚ),
          q ∈ TextIndex.search_with_filters catalog sims query cat col
            minP (some 50) k →
          (catalog.getD q.1 default).price ≤ 50) :=
  ⟨by norm_num,
   C4_price_boost
     ⟨1, "Running Shoes", "light shoes", some "shoes", some "red", 30,
       ["running"]⟩ 50 (by norm_num)⟩

/-- C5 (amended): in the text index the tag boost is exactly
`0.12 * min(|query_tokens ∩ tags|, 2)` and so at most `0.24`, and every
returned score decomposes as base similarity plus tag and price boosts;
the embedding index instead uses a flat boost that is either `0` or
`0.18` (see the counterexample). -/
theorem C5_tag_boost (qw : List String) (it : Item) (catalog : List Item)
    (sims : Nat → ℚ) (query : String) (cat col : Option String)
    (minP maxP : Option ℚ) (k : Nat) (p : Nat × ℚ)
    (hp : p ∈ TextIndex.search_with_filters catalog sims query cat col
      minP maxP k) :
    TextIndex.tag_boost qw it
      = 12 / 100 *
        ((min ((qw.filter
          (fun w => (it.tags.map py_lower).contains w)).length) 2 : ℕ) : ℚ)
    ∧ TextIndex.tag_boost qw it ≤ 24 / 100
    ∧ (∀ (terms : List String) (it2 : Item),
        EmbeddingIndex.ei_tag_boost terms it2 = 0
        ∨ EmbeddingIndex.ei_tag_boost terms it2 = 18 / 100)
    ∧ p.2 = TextIndex.fused_score sims
        (TextIndex.query_words
          (if query = "" then "popular picks" else query))
        maxP catalog p.1 := by
  refine ⟨rfl, ?_, ?_, (mem_search_with_filters hp).2⟩
  · unfold TextIndex.tag_boost
    have h2 : ((min ((qw.filter
        (fun w => (it.tags.map py_lower).contains w)).length) 2 : ℕ) : ℚ)
        ≤ (2 : ℚ) := by
      exact_mod_cast Nat.min_le_right _ 2
    nlinarith
  · intro terms it2
    unfold EmbeddingIndex.ei_tag_boost
    split
    · exact Or.inr rfl
    · exact Or.inl rfl

/-- Witness for C5: the concrete one-item search of the C1 witness. -/
theorem C5_tag_boost_witness :
    ((0, (3 : ℚ)/50) ∈ TextIndex.search_with_filters
      [⟨1, "Running Shoes", "light shoes", some "shoes", some "red", 30,
        ["running"]⟩] (fun _ => 0) "" (some "shoes") none none (some 50) 5)
    ∧ (TextIndex.tag_boost ["running"]
        ⟨1, "Running Shoes", "light shoes", some "shoes", some "red", 30,
          ["running"]⟩
        = 12 / 100 *
          ((min (((["running"] : List String).filter
            (fun w => (((⟨1, "Running Shoes", "light shoes", some "shoes",
              some "red", 30, ["running"]⟩ : Item)).tags.map
                py_lower).contains w)).length) 2 : ℕ) : ℚ)
      ∧ TextIndex.tag_boost ["running"]
          ⟨1, "Running Shoes", "light shoes", some "shoes", some "red", 30,
            ["running"]⟩ ≤ 24 / 100
      ∧ (∀ (terms : List String) (it2 : Item),
          EmbeddingIndex.ei_tag_boost terms it2 = 0
          ∨ EmbeddingIndex.ei_tag_boost terms it2 = 18 / 100)
      ∧ ((0, (3 : ℚ)/50) : Nat × ℚ).2 = TextIndex.fused_score (fun _ => 0)
          (TextIndex.query_words
            (if ("" : String) = "" then "popular picks" else ""))
          (some 50)
          [⟨1, "Running Shoes", "light shoes", some "shoes", some "red",
            30, ["running"]⟩] ((0, (3 : ℚ)/50) : Nat × ℚ).1) :=
  ⟨by decide,
   C5_tag_boost ["running"]
     ⟨1, "Running Shoes", "light shoes", some "shoes", some "red", 30,
       ["running"]⟩
     [⟨1, "Running Shoes", "light shoes", some "shoes", some "red", 30,
       ["running"]⟩] (fun _ => 0) "" (some "shoes") none none (some 50) 5
     (0, 3/50) (by decide)⟩

/-- C5 counterexample: in `EmbeddingIndex.search_with_filters`, the
query "running" against one item tagged "running" yields the flat boost
`0.18`, not `0.12 * min(1, 2) = 0.12`. -/
theorem C5_counterexample :
    EmbeddingIndex.search_with_filters
        [⟨0, "Trail Shoes", "", some "shoes", some "red", 30, ["running"]⟩]
        (fun _ => 0) "running" ⟨none, none, none, none⟩ 8
      = [(0, 18 / 100)]
    ∧ (decide ((18 : ℚ) / 100 = 12 / 100 * ((min 1 2 : ℕ) : ℚ)) = false) := by
  refine ⟨by decide, by decide⟩

/-- C6 (amended, text index): when an API key is present and the Gemini
embedder fails on every call, the rebuild still succeeds, its vectors
are exactly the TF-IDF encoder's output on the whole corpus (partial
Gemini vectors never appear), and the recorded mode is "tfidf".  (The
vision index picks its backend by availability before the build and does
not catch per-call failures; see the counterexample.) -/
theorem C6_backend_fallback (gem : String → Option (List ℚ))
    (tfidf : List String → List (List ℚ)) (texts : List String)
    (hfail : ∀ t, gem t = none) (hne : texts ≠ []) :
    EmbeddingIndex.rebuild_resilient true gem tfidf texts
      = ⟨tfidf texts, "tfidf"⟩ := by
  have hbatch : EmbeddingIndex.embed_batch_gemini gem texts = none := by
    cases texts with
    | nil => exact absurd rfl hne
    | cons t ts =>
      unfold EmbeddingIndex.embed_batch_gemini
      rw [hfail t]
  unfold EmbeddingIndex.rebuild_resilient
  rw [if_neg hne, hbatch]
  rfl

/-- Witness for C6: one-text corpus, an always-failing Gemini embedder,
and a constant TF-IDF encoder. -/
theorem C6_backend_fallback_witness :
    ((∀ t : String, (fun _ : String => (none : Option (List ℚ))) t = none)
      ∧ (["a"] : List String) ≠ [])
    ∧ EmbeddingIndex.rebuild_resilient true (fun _ => none)
        (fun ts => ts.map fun _ => [1]) ["a"]
      = ⟨[[1]], "tfidf"⟩ :=
  ⟨⟨fun _ => rfl, by decide⟩,
   C6_backend_fallback (fun _ => none) (fun ts => ts.map fun _ => [1])
     ["a"] (fun _ => rfl) (by decide)⟩

/-- C6 counterexample: the vision index chooses "open_clip" whenever the
library imports, and an encoder that throws on every call during the
corpus encoding loop makes the whole build fail instead of falling back
to the next backend. -/
theorem C6_counterexample :
    VisionIndex.pick_backend true true = "open_clip"
    ∧ VisionIndex.build_embs (fun _ => Except.error ()) [0]
      = Except.error ()
    ∧ (Except.error () : Except Unit (List (List ℚ))).isOk = false :=
  ⟨rfl, rfl, rfl⟩

/-- C7 (amended): `VisionIndex.search_image_url` returns the empty list
whenever the image fetch/decode fails, and (being a total function of
its inputs) never raises.  (`ImageSearch.search_by_image_url` instead
embeds the URL string as a text query; see the counterexample.) -/
theorem C7_fetch_failure_empty (fetch : String → Option Nat)
    (q_params : Nat → (Nat → ℚ) × (Nat → ℚ) × String)
    (catalog : List Item) (meta : List VisionIndex.VMeta) (url : String)
    (k : Nat) (h : fetch url = none) :
    VisionIndex.search_image_url fetch q_params catalog meta url k = [] := by
  unfold VisionIndex.search_image_url
  rw [h]

/-- Witness for C7: a concrete failing fetch on a one-item index. -/
theorem C7_fetch_failure_empty_witness :
    ((fun _ : String => (none : Option Nat)) "http://host/q.jpg" = none)
    ∧ VisionIndex.search_image_url (fun _ => none)
        (fun _ => (fun _ => 0, fun _ => 0, "red"))
        [⟨0, "Sneakers", "", some "shoes", some "red", 30, []⟩]
        [⟨0, "shoes", "red"⟩] "http://host/q.jpg" 8
      = [] :=
  ⟨rfl,
   C7_fetch_failure_empty (fun _ => none)
     (fun _ => (fun _ => 0, fun _ => 0, "red"))
     [⟨0, "Sneakers", "", some "shoes", some "red", 30, []⟩]
     [⟨0, "shoes", "red"⟩] "http://host/q.jpg" 8 rfl⟩

/-- C7 counterexample: `ImageSearch.search_by_image_url` with a failing
fetch does not return the empty list — it embeds the URL as text and
returns catalog items. -/
theorem C7_counterexample :
    ImageSearch.search_by_image_url (fun _ => none) (fun _ => none)
        (fun _ => [1]) [⟨0, "Blue Tote", "", "bags", "a bag", [], ""⟩]
        "http://host/q.jpg" 8
      = [⟨0, "Blue Tote", "", "bags", "a bag", [], ""⟩]
    ∧ ([⟨0, "Blue Tote", "", "bags", "a bag", [],
        ""⟩] : List ImageSearch.Product).isEmpty = false := by
  refine ⟨by decide, by decide⟩

/-- C9 (amended): with the neutral checks running before hue voting, a
uniform dark-gray image (saturation 0, value 0.1) classifies as "black";
a uniform saturated hue-180° image (RGB (0,1,1)) classifies as "blue";
and a uniform saturated hue-220° image (RGB (0,1/3,1)) classifies as
"purple", since the blue hue bin is [150°,210°) and [210°,270°) maps to
purple. -/
theorem C9_color_classification :
    VisionIndex.dominant_color_name
        (List.replicate 4 ((1 : ℚ)/10, (1 : ℚ)/10, (1 : ℚ)/10)) = "black"
    ∧ VisionIndex.rgb_to_hsv 0 1 1 = (1/2, 1, 1)
    ∧ VisionIndex.dominant_color_name
        (List.replicate 4 ((0 : ℚ), (1 : ℚ), (1 : ℚ))) = "blue"
    ∧ VisionIndex.dominant_color_name
        (List.replicate 4 ((0 : ℚ), (1 : ℚ)/3, (1 : ℚ))) = "purple" := by
  refine ⟨by decide, by decide, by decide, by decide⟩

/-- C9 counterexample: the hue-220° pixel (RGB (0,1/3,1), whose computed
hue is exactly 220/360) classifies as "purple", not "blue" as the claim
states. -/
theorem C9_counterexample :
    VisionIndex.rgb_to_hsv 0 (1/3) 1 = (11/18, 1, 1)
    ∧ ((11 : ℚ)/18) * 360 = 220
    ∧ VisionIndex.dominant_color_name
        (List.replicate 4 ((0 : ℚ), (1 : ℚ)/3, (1 : ℚ))) = "purple"
    ∧ (("purple" == "blue") = false) := by
  refine ⟨by decide, by decide, by decide, by decide⟩

/-- C10 (amended): every item returned by `VisionIndex._search_image` is
the harmonization of a stored catalog item; for a stored item whose
color is null, empty or "assorted" and a detected query color other than
"assorted", harmonization replaces the color field by the query color
and applies the leading-word title rewrite (which changes the title only
when it starts with an alphabetic word followed by whitespace), leaving
all other fields — and the stored catalog itself — unchanged. -/
theorem C10_output_harmonization (catalog : List Item)
    (meta : List VisionIndex.VMeta) (base hist : Nat → ℚ) (qc : String)
    (k : Nat) (p : Item × ℚ) (it : Item)
    (hp : p ∈ VisionIndex.search_image catalog meta base hist qc k)
    (hc : it.color = none ∨ it.color = some "" ∨ it.color = some "assorted")
    (hq : qc ≠ "assorted") :
    (∃ j, p.1 = VisionIndex.harmonize
      (catalog.getD ((meta.getD j default).idx) default) qc)
    ∧ (VisionIndex.harmonize it qc).color = some qc
    ∧ (VisionIndex.harmonize it qc).title
      = VisionIndex.rewrite_title qc it.title
    ∧ (VisionIndex.harmonize it qc).id = it.id
    ∧ (VisionIndex.harmonize it qc).description = it.description
    ∧ (VisionIndex.harmonize it qc).category = it.category
    ∧ (VisionIndex.harmonize it qc).price = it.price
    ∧ (VisionIndex.harmonize it qc).tags = it.tags := by
  obtain ⟨h1, h2, h3, h4, h5, h6, h7⟩ := harmonize_fields hc hq
  exact ⟨mem_search_image hp, h1, h2, h3, h4, h5, h6, h7⟩

/-- Witness for C10: the concrete one-item vision search whose stored
item has color "assorted" and whose detected query color is "blue". -/
theorem C10_output_harmonization_witness :
    ((⟨0, "Sneakers", "", some "shoes", some "blue", 30, []⟩,
        (6 : ℚ)/5) ∈ VisionIndex.search_image
      [⟨0, "Sneakers", "", some "shoes", some "assorted", 30, []⟩]
      [⟨0, "shoes", "assorted"⟩] (fun _ => 1) (fun _ => 0) "blue" 5)
    ∧ ((⟨0, "Sneakers", "", some "shoes", some "assorted", 30,
        []⟩ : Item).color = none
      ∨ (⟨0, "Sneakers", "", some "shoes", some "assorted", 30,
        []⟩ : Item).color = some ""
      ∨ (⟨0, "Sneakers", "", some "shoes", some "assorted", 30,
        []⟩ : Item).color = some "assorted")
    ∧ ("blue" : String) ≠ "assorted"
    ∧ (VisionIndex.harmonize
        ⟨0, "Sneakers", "", some "shoes", some "assorted", 30, []⟩
        "blue").color = some "blue" :=
  ⟨by decide, by decide, by decide,
   (C10_output_harmonization
     [⟨0, "Sneakers", "", some "shoes", some "assorted", 30, []⟩]
     [⟨0, "shoes", "assorted"⟩] (fun _ => 1) (fun _ => 0) "blue" 5
     (⟨0, "Sneakers", "", some "shoes", some "blue", 30, []⟩, 6/5)
     ⟨0, "Sneakers", "", some "shoes", some "assorted", 30, []⟩
     (by decide) (by decide) (by decide)).2.1⟩

/-- C10 counterexample: for the single-word title "Sneakers" the color
field is replaced but the title's first word is not rewritten to the
color — the output title stays "Sneakers". -/
theorem C10_counterexample :
    VisionIndex.search_image
        [⟨0, "Sneakers", "", some "shoes", some "assorted", 30, []⟩]
        [⟨0, "shoes", "assorted"⟩] (fun _ => 1) (fun _ => 0) "blue" 5
      = [(⟨0, "Sneakers", "", some "shoes", some "blue", 30, []⟩,
          (6 : ℚ)/5)]
    ∧ (("Sneakers" == "Blue Sneakers") = false)
    ∧ ((py_lower "Sneakers" == "blue") = false) := by
  refine ⟨by decide, by decide, by decide⟩

/-- C8 (amended): the category prior of the vision search divides each
category's count among the top-min(40, N) entries by that number of
entries (not by the constant 40), and it ranks entries by the scores it
is given — which in `_search_image` already include the color and
histogram boosts (see the counterexample).  Writing `cats` for the
categories of those top entries: some category `best` of maximal count
receives `(count/|cats|) * 0.15 + 0.05`, every other present category
receives `(count/|cats|) * 0.15`, and absent categories receive 0. -/
theorem C8_category_prior (scores : List ℚ)
    (meta : List VisionIndex.VMeta) (top_m : Nat)
    (hne : VisionIndex.top_cats scores meta top_m ≠ []) :
    (VisionIndex.top_cats scores meta top_m).length
      = min top_m scores.length
    ∧ ∃ best : String,
      (∀ c : String, (VisionIndex.top_cats scores meta top_m).count c
        ≤ (VisionIndex.top_cats scores meta top_m).count best)
      ∧ ∀ c : String,
        lookupD (VisionIndex.category_prior scores meta top_m) c 0
          = ((VisionIndex.top_cats scores meta top_m).count c : ℚ)
              / ((VisionIndex.top_cats scores meta top_m).length : ℚ)
              * (15 / 100)
            + (if c = best then 5 / 100 else 0) := by
  set cats := VisionIndex.top_cats scores meta top_m with hcats
  have hlen : cats.length = min top_m scores.length := by
    rw [hcats]
    unfold VisionIndex.top_cats argsort_desc sort_desc_by
    rw [List.length_map, List.length_take, List.length_insertionSort,
      List.length_range]
    omega
  have hlpos : 0 < cats.length := List.length_pos.mpr hne
  have hpc : VisionIndex.prior_counts scores meta top_m
      = counts_fold cats := rfl
  have hnodup := nodup_keys_counts_fold cats
  have hcne : counts_fold cats ≠ [] := by
    obtain ⟨x, hx⟩ := List.exists_mem_of_ne_nil cats hne
    intro h
    have hm := (mem_keys_counts_fold cats x).mpr hx
    rw [h] at hm
    simp at hm
  have htot : VisionIndex.prior_total scores meta top_m
      = (cats.length : ℚ) := by
    unfold VisionIndex.prior_total
    rw [hpc, sum_snd_counts_fold]
  have htpos : (0 : ℚ) < VisionIndex.prior_total scores meta top_m := by
    rw [htot]
    exact_mod_cast hlpos
  have hpb : VisionIndex.prior_base scores meta top_m
      = (counts_fold cats).map fun p =>
          (p.1, ((p.2 : ℕ) : ℚ) / VisionIndex.prior_total scores meta top_m
            * (15 / 100)) := by
    unfold VisionIndex.prior_base
    rw [hpc]
  have hpbne : VisionIndex.prior_base scores meta top_m ≠ [] := by
    rw [hpb]
    intro h
    exact hcne (List.map_eq_nil_iff.mp h)
  obtain ⟨v, hvmem, hvmax⟩ := first_max_key_spec hpbne
  have hentry : ∀ {c : String} {w : ℚ},
      (c, w) ∈ VisionIndex.prior_base scores meta top_m →
      w = (cats.count c : ℚ) / VisionIndex.prior_total scores meta top_m
        * (15 / 100) := by
    intro c w hm
    have hval := mem_map_val_eq
      (fun _ n => ((n : ℕ) : ℚ) / VisionIndex.prior_total scores meta top_m
        * (15 / 100)) hpb hnodup 0 hm
    rw [lookupD_counts_fold] at hval
    exact hval
  have hvval : v = (cats.count
        (first_max_key (VisionIndex.prior_base scores meta top_m)) : ℚ)
      / VisionIndex.prior_total scores meta top_m * (15 / 100) :=
    hentry hvmem
  have hcpeq : VisionIndex.category_prior scores meta top_m
      = (VisionIndex.prior_base scores meta top_m).map fun p =>
          (p.1, if p.1
              = first_max_key (VisionIndex.prior_base scores meta top_m)
            then p.2 + 5 / 100 else p.2) := by
    unfold VisionIndex.category_prior
    rw [if_neg (show ¬ VisionIndex.prior_counts scores meta top_m = []
      from by rw [hpc]; exact hcne)]
  refine ⟨hlen,
    first_max_key (VisionIndex.prior_base scores meta top_m), ?_, ?_⟩
  · intro c
    by_cases hcm : c ∈ cats
    · have hkey : c ∈ (counts_fold cats).map Prod.fst :=
        (mem_keys_counts_fold cats c).mpr hcm
      obtain ⟨n, hn⟩ := exists_of_mem_keys hkey
      have hnval : n = cats.count c := by
        have h2 := lookupD_eq_of_mem 0 hnodup hn
        rw [lookupD_counts_fold] at h2
        exact h2.symm
      have hmem2 : (c, ((n : ℕ) : ℚ)
          / VisionIndex.prior_total scores meta top_m * (15 / 100))
          ∈ VisionIndex.prior_base scores meta top_m := by
        rw [hpb]
        exact List.mem_map_of_mem _ hn
      have hle := hvmax _ hmem2
      simp only at hle
      rw [hvval] at hle
      have h3 := mul_le_mul_of_nonneg_right hle htpos.le
      rw [mul_right_comm ((n : ℚ) / VisionIndex.prior_total scores meta
            top_m) (15 / 100) (VisionIndex.prior_total scores meta top_m),
        mul_right_comm ((cats.count (first_max_key
            (VisionIndex.prior_base scores meta top_m)) : ℚ)
            / VisionIndex.prior_total scores meta top_m) (15 / 100)
          (VisionIndex.prior_total scores meta top_m),
        div_mul_cancel₀ _ (ne_of_gt htpos),
        div_mul_cancel₀ _ (ne_of_gt htpos)] at h3
      have h4 : (n : ℚ) ≤ (cats.count (first_max_key
          (VisionIndex.prior_base scores meta top_m)) : ℚ) :=
        le_of_mul_le_mul_right h3 (by norm_num)
      rw [← hnval]
      exact_mod_cast h4
    · rw [List.count_eq_zero.mpr hcm]
      exact Nat.zero_le _
  · intro c
    by_cases hkey : c ∈ (counts_fold cats).map Prod.fst
    · have hkeyb : c ∈ (VisionIndex.prior_base scores meta
          top_m).map Prod.fst := by
        rw [keys_map_val
          (fun _ n => ((n : ℕ) : ℚ)
            / VisionIndex.prior_total scores meta top_m * (15 / 100)) hpb]
        exact hkey
      rw [lookupD_map_mem
        (fun k w => if k
            = first_max_key (VisionIndex.prior_base scores meta top_m)
          then w + 5 / 100 else w) hcpeq hkeyb 0 0]
      rw [lookupD_map_mem
        (fun _ n => ((n : ℕ) : ℚ)
          / VisionIndex.prior_total scores meta top_m * (15 / 100))
        hpb hkey 0 0]
      rw [lookupD_counts_fold, htot]
      by_cases hb : c = first_max_key
          (VisionIndex.prior_base scores meta top_m)
      · rw [if_pos hb, if_pos hb]
      · rw [if_neg hb, if_neg hb, add_zero]
    · have hkeyb : c ∉ (VisionIndex.prior_base scores meta
          top_m).map Prod.fst := by
        rw [keys_map_val
          (fun _ n => ((n : ℕ) : ℚ)
            / VisionIndex.prior_total scores meta top_m * (15 / 100)) hpb]
        exact hkey
      have hkeycp : c ∉ (VisionIndex.category_prior scores meta
          top_m).map Prod.fst := by
        rw [keys_map_val
          (fun k w => if k
              = first_max_key (VisionIndex.prior_base scores meta top_m)
            then w + 5 / 100 else w) hcpeq]
        exact hkeyb
      rw [lookupD_not_mem hkeycp]
      have hc0 : cats.count c = 0 :=
        List.count_eq_zero.mpr
          (fun hm => hkey ((mem_keys_counts_fold cats c).mpr hm))
      have hcb : ¬ c = first_max_key
          (VisionIndex.prior_base scores meta top_m) := by
        intro he
        rw [he] at hkeyb
        exact hkeyb (List.mem_map_of_mem Prod.fst hvmem)
      rw [hc0, if_neg hcb]
      norm_num

/-- Witness for C8: a two-entry index (one "shoes", one "bags") with
distinct scores. -/
theorem C8_category_prior_witness :
    (VisionIndex.top_cats [1, 1/2]
        [⟨0, "shoes", "red"⟩, ⟨1, "bags", "red"⟩] 40 ≠ [])
    ∧ ((VisionIndex.top_cats [1, 1/2]
          [⟨0, "shoes", "red"⟩, ⟨1, "bags", "red"⟩] 40).length
        = min 40 ([1, (1 : ℚ)/2] : List ℚ).length
      ∧ ∃ best : String,
        (∀ c : String, (VisionIndex.top_cats [1, 1/2]
            [⟨0, "shoes", "red"⟩, ⟨1, "bags", "red"⟩] 40).count c
          ≤ (VisionIndex.top_cats [1, 1/2]
            [⟨0, "shoes", "red"⟩, ⟨1, "bags", "red"⟩] 40).count best)
        ∧ ∀ c : String,
          lookupD (VisionIndex.category_prior [1, 1/2]
              [⟨0, "shoes", "red"⟩, ⟨1, "bags", "red"⟩] 40) c 0
            = ((VisionIndex.top_cats [1, 1/2]
                [⟨0, "shoes", "red"⟩, ⟨1, "bags", "red"⟩] 40).count c : ℚ)
                / ((VisionIndex.top_cats [1, 1/2]
                  [⟨0, "shoes", "red"⟩,
                    ⟨1, "bags", "red"⟩] 40).length : ℚ)
                * (15 / 100)
              + (if c = best then 5 / 100 else 0)) :=
  ⟨by decide,
   C8_category_prior [1, 1/2] [⟨0, "shoes", "red"⟩, ⟨1, "bags", "red"⟩]
     40 (by decide)⟩

/-- C8 counterexample: on `cex8_meta`, the top-40 by *base* score
contains no "caps" entry (so the claimed boost for "caps" is 0), yet the
code's prior — computed over scores that already include the 0.12 color
bonus — gives "caps" the boost 3/800; and on a 2-entry index the code
divides by 2, not by 40, giving "shoes" the boost 1/8 instead of the
claimed `(1/40)*0.15 + 0.05`. -/
theorem C8_counterexample :
    (VisionIndex.top_cats ((List.range 41).map cex8_base) cex8_meta
        40).count "caps" = 0
    ∧ lookupD (VisionIndex.category_prior
        (VisionIndex.score_vec cex8_base (fun _ => 0) cex8_meta "red")
        cex8_meta 40) "caps" 0 = 3 / 800
    ∧ (decide ((3 : ℚ) / 800 = 0) = false)
    ∧ lookupD (VisionIndex.category_prior [1, 1/2]
        [⟨0, "shoes", "red"⟩, ⟨1, "bags", "red"⟩] 40) "shoes" 0 = 1 / 8
    ∧ (decide ((1 : ℚ) / 8
        = (1 : ℚ) / 40 * (15 / 100) + 5 / 100) = false) := by
  refine ⟨by decide, by decide, by decide, by decide, by decide⟩

end ClaimTheorems

end Commerce
